import Mathlib

/-!
Verification of the synctool synchronization engine
(consistency_checker.py, sync_engine.py, file_watcher.py, converter.py)
against its natural-language specification.

Shallow embedding conventions:
* file modification times and thresholds are integers (seconds; the
  debounce model uses milliseconds so that the source's 0.1 s literal is
  exact) - machine floats carry no overflow here, only ordering and
  subtraction, which the integers model exactly;
* a relative path is a record of directory components, stem and extension
  (Python `Path(rel).parent`, `.stem`, `.suffix`);
* an absolute path is a tree root plus a relative path;
* Python dicts keyed by relative-path strings become association lists;
* Python sets become Finsets;
* fallible operations return Option.
-/

namespace Synctool

/-- Absolute value on the integers, written executably
(Python `abs(...)` on float seconds). -/
def absI (x : ℤ) : ℤ := if x < 0 then -x else x

/-- Lowercasing used by `get_file_extension` (utils.py line 62: `.lower()`). -/
def lowerExt (s : String) : String :=
  String.mk (s.data.map Char.toLower)

/-- A relative path inside one of the two trees: directory components,
stem and extension (without the dot), mirroring how the Python code
manipulates `Path(rel_path).parent / (Path(rel_path).stem + ext)`. -/
structure RelPath where
  dirs : List String
  stem : String
  ext : String
deriving DecidableEq, Repr

/-- Replace the extension of a relative path
(`Path(rel_path).parent / (Path(rel_path).stem + target_ext)`). -/
def withExt (p : RelPath) (e : String) : RelPath :=
  { p with ext := e }

/-- `is_markdown_file` (utils.py lines 64-77): extension, lowercased,
equals `md`. -/
def isMarkdownRel (p : RelPath) : Bool :=
  lowerExt p.ext = "md"

/-- `is_notebook_file` (utils.py lines 79-92): extension, lowercased,
equals `ipynb`. -/
def isNotebookRel (p : RelPath) : Bool :=
  lowerExt p.ext = "ipynb"

/-- The three values of the `conflict_resolution` configuration key. -/
inductive ConflictRes where
  | newer
  | md
  | ipynb
deriving DecidableEq, Repr

/-- Direction of one sync action in the reconciliation plan. -/
inductive SyncDir where
  | dirMdToIpynb
  | dirIpynbToMd
deriving DecidableEq, Repr

/-- Association-list lookup keyed by decidable equality
(Python dict indexing / membership). -/
def lookupA {α β : Type} [DecidableEq α] (k : α) : List (α × β) → Option β
  | [] => none
  | (k2, v) :: rest => if k2 = k then some v else lookupA k rest

/-- The per-pair decision of `check_consistency` for a rel path present
in both trees (consistency_checker.py lines 153-187): skip when the
mtime difference is below the threshold, otherwise the
`if (md_mtime > ipynb_mtime) or conflict_resolution == 'md'` /
`elif (md_mtime < ipynb_mtime) or conflict_resolution == 'ipynb'`
cascade. -/
def pairDecision (res : ConflictRes) (thr mdM ipM : ℤ) : Option SyncDir :=
  if absI (mdM - ipM) < thr then none
  else if mdM > ipM ∨ res = ConflictRes.md then some SyncDir.dirMdToIpynb
  else if mdM < ipM ∨ res = ConflictRes.ipynb then some SyncDir.dirIpynbToMd
  else none

/-- One entry of the `md_to_ipynb` / `ipynb_to_md` lists built by
`check_consistency`: the `rel_path` key recorded with the action and the
`time_diff` field (`none` models `float('inf')` for new files). -/
structure SyncAction where
  relPath : RelPath
  timeDiff : Option ℤ
deriving DecidableEq, Repr

/-- The `sync_actions` dict returned by `check_consistency`
(consistency_checker.py lines 137-143; the `conflict` list is never
filled by the code and is omitted). -/
structure SyncActions where
  mdToIpynb : List SyncAction
  ipynbToMd : List SyncAction
  orphanedMd : List RelPath
  orphanedIpynb : List RelPath
deriving DecidableEq, Repr

/-- Contribution of one scanned MD entry to the `md_to_ipynb` list
(consistency_checker.py lines 146-197): non-markdown entries are
skipped; a mirrored pair contributes when the pair decision is
MD to IPYNB; an entry with no mirror contributes a new-file action
with infinite `time_diff`. -/
def mdLoopToIpynb (res : ConflictRes) (thr : ℤ)
    (ipynbFiles : List (RelPath × ℤ)) (pm : RelPath × ℤ) : Option SyncAction :=
  if isMarkdownRel pm.1 then
    match lookupA (withExt pm.1 "ipynb") ipynbFiles with
    | some im =>
      match pairDecision res thr pm.2 im with
      | some SyncDir.dirMdToIpynb => some ⟨pm.1, some (absI (pm.2 - im))⟩
      | _ => none
    | none => some ⟨pm.1, none⟩
  else none

/-- Contribution of one scanned MD entry to the `ipynb_to_md` list
(consistency_checker.py lines 180-187): the action is recorded under
the mirror rel path (`'rel_path': rel_ipynb_path`, line 184). -/
def mdLoopToMd (res : ConflictRes) (thr : ℤ)
    (ipynbFiles : List (RelPath × ℤ)) (pm : RelPath × ℤ) : Option SyncAction :=
  if isMarkdownRel pm.1 then
    match lookupA (withExt pm.1 "ipynb") ipynbFiles with
    | some im =>
      match pairDecision res thr pm.2 im with
      | some SyncDir.dirIpynbToMd => some ⟨withExt pm.1 "ipynb", some (absI (pm.2 - im))⟩
      | _ => none
    | none => none
  else none

/-- Contribution of one scanned IPYNB entry to the `ipynb_to_md` list
(consistency_checker.py lines 200-216): only new-file propagation, when
the mirror MD rel path is absent from the MD snapshot. -/
def ipynbLoopToMd (mdFiles : List (RelPath × ℤ)) (pm : RelPath × ℤ) :
    Option SyncAction :=
  if isNotebookRel pm.1 then
    match lookupA (withExt pm.1 "md") mdFiles with
    | none => some ⟨pm.1, none⟩
    | some _ => none
  else none

/-- `ConsistencyChecker.check_consistency` (consistency_checker.py lines
122-254) on two already-scanned snapshots, each an association list
from rel path to mtime. Orphan marking (lines 218-238) runs only when
`delete_orphaned` is set and excludes rel paths already scheduled in
the same plan. -/
def checkConsistency (res : ConflictRes) (thr : ℤ) (deleteOrphaned : Bool)
    (mdFiles ipynbFiles : List (RelPath × ℤ)) : SyncActions :=
  let m2i := mdFiles.filterMap (mdLoopToIpynb res thr ipynbFiles)
  let i2m := mdFiles.filterMap (mdLoopToMd res thr ipynbFiles) ++
             ipynbFiles.filterMap (ipynbLoopToMd mdFiles)
  let orphM :=
    if deleteOrphaned then
      mdFiles.filterMap (fun pm =>
        if isMarkdownRel pm.1 then
          if (lookupA (withExt pm.1 "ipynb") ipynbFiles).isNone &&
             !(m2i.any (fun a => decide (a.relPath = pm.1))) then
            some pm.1
          else none
        else none)
    else []
  let orphI :=
    if deleteOrphaned then
      ipynbFiles.filterMap (fun pm =>
        if isNotebookRel pm.1 then
          if (lookupA (withExt pm.1 "md") mdFiles).isNone &&
             !(i2m.any (fun a => decide (a.relPath = pm.1))) then
            some pm.1
          else none
        else none)
    else []
  ⟨m2i, i2m, orphM, orphI⟩

/-! ## Sync engine (sync_engine.py) -/

/-- An absolute path: the configured tree root it lives under plus the
relative path inside it. `file_path.parents` membership tests against
`md_dir` / `ipynb_dir` become equality of the `root` field. -/
structure AbsPath where
  root : String
  rel : RelPath
deriving DecidableEq, Repr

/-- `is_markdown_file(str(file_path))`. -/
def isMdPath (p : AbsPath) : Bool := isMarkdownRel p.rel

/-- `is_notebook_file(str(file_path))`. -/
def isIpynbPath (p : AbsPath) : Bool := isNotebookRel p.rel

/-- The configuration the engine reads, plus the engine's own
`sync_timeout` field (sync_engine.py line 34), which is set to 5 and
never read anywhere else. -/
structure EngineConfig where
  mdDir : String
  ipynbDir : String
  res : ConflictRes
  thr : ℤ
  deleteOrphaned : Bool
  syncTimeout : ℤ
deriving DecidableEq, Repr

/-- The filesystem as far as the engine's decisions consult it:
each path either absent or present with an mtime. -/
def FsTimes : Type := AbsPath → Option ℤ

/-- Point update of the engine-view filesystem. -/
def setTime (fs : FsTimes) (p : AbsPath) (v : Option ℤ) : FsTimes :=
  fun q => if q = p then v else fs q

/-- The mirror path of a recognized file: same relative sub-path in the
opposite tree with the extension swapped (sync_engine.py lines 82-89). -/
def mirrorOf (cfg : EngineConfig) (p : AbsPath) : AbsPath :=
  if isMdPath p then AbsPath.mk cfg.ipynbDir (withExt p.rel "ipynb")
  else AbsPath.mk cfg.mdDir (withExt p.rel "md")

/-- Result of `SyncEngine.handle_file_deletion`. -/
inductive DeletionOutcome where
  | ignoredNonTarget
  | deletedTarget (tgt : AbsPath)
  | retainedTarget (tgt : AbsPath)
deriving DecidableEq, Repr

/-- `SyncEngine.handle_file_deletion` (sync_engine.py lines 66-103):
unrecognized extensions are ignored; otherwise the mirror path is
computed and deleted exactly when it exists and `delete_orphaned` is
enabled, else retained (logged). The deleted path is taken to lie in
its type's configured tree, which is how `get_relative_path` against
that tree's root is meaningful. -/
def handleFileDeletion (cfg : EngineConfig) (fs : FsTimes) (p : AbsPath) :
    FsTimes × DeletionOutcome :=
  if isMdPath p || isIpynbPath p then
    let tgt := mirrorOf cfg p
    if (fs tgt).isSome && cfg.deleteOrphaned then
      (setTime fs tgt none, DeletionOutcome.deletedTarget tgt)
    else (fs, DeletionOutcome.retainedTarget tgt)
  else (fs, DeletionOutcome.ignoredNonTarget)

/-- What one call of `sync_file_if_needed` / the per-direction sync
helpers decides. A `synced` outcome means the conversion is invoked
(the write itself is modeled in the Converter section). -/
inductive SyncOutcome where
  | skippedMissing
  | skippedRecentlySynced
  | skippedUnsupported
  | skippedOutsideDir
  | skippedPreferOther
  | skippedClose
  | skippedTargetNewer
  | statFailed
  | syncedMdToIpynb (src tgt : AbsPath)
  | syncedIpynbToMd (src tgt : AbsPath)
deriving DecidableEq, Repr

/-- `SyncEngine.sync_md_to_ipynb` (sync_engine.py lines 180-232):
when the target exists the conflict policy gates the overwrite
(`md` proceeds, `ipynb` skips, `newer` compares stamps against the
threshold); when it proceeds, the target is recorded in
`recently_synced` before converting. -/
def sync_md_to_ipynb (cfg : EngineConfig) (fs : FsTimes)
    (st : Finset AbsPath) (src tgt : AbsPath) : Finset AbsPath × SyncOutcome :=
  match fs tgt with
  | some tgtM =>
    match cfg.res with
    | ConflictRes.md => (insert tgt st, SyncOutcome.syncedMdToIpynb src tgt)
    | ConflictRes.ipynb => (st, SyncOutcome.skippedPreferOther)
    | ConflictRes.newer =>
      match fs src with
      | some srcM =>
        if absI (srcM - tgtM) < cfg.thr then (st, SyncOutcome.skippedClose)
        else if tgtM > srcM then (st, SyncOutcome.skippedTargetNewer)
        else (insert tgt st, SyncOutcome.syncedMdToIpynb src tgt)
      | none => (st, SyncOutcome.statFailed)
  | none => (insert tgt st, SyncOutcome.syncedMdToIpynb src tgt)

/-- `SyncEngine.sync_ipynb_to_md` (sync_engine.py lines 234-286):
mirror image of `sync_md_to_ipynb` (`ipynb` proceeds, `md` skips). -/
def sync_ipynb_to_md (cfg : EngineConfig) (fs : FsTimes)
    (st : Finset AbsPath) (src tgt : AbsPath) : Finset AbsPath × SyncOutcome :=
  match fs tgt with
  | some tgtM =>
    match cfg.res with
    | ConflictRes.ipynb => (insert tgt st, SyncOutcome.syncedIpynbToMd src tgt)
    | ConflictRes.md => (st, SyncOutcome.skippedPreferOther)
    | ConflictRes.newer =>
      match fs src with
      | some srcM =>
        if absI (srcM - tgtM) < cfg.thr then (st, SyncOutcome.skippedClose)
        else if tgtM > srcM then (st, SyncOutcome.skippedTargetNewer)
        else (insert tgt st, SyncOutcome.syncedIpynbToMd src tgt)
      | none => (st, SyncOutcome.statFailed)
  | none => (insert tgt st, SyncOutcome.syncedIpynbToMd src tgt)

/-- `SyncEngine.sync_file_if_needed` (sync_engine.py lines 111-178):
missing files are skipped; a path found in `recently_synced` is removed
from the set and skipped (the echo guard; `time.time()` is read into a
local that is never used, so neither `now` nor `cfg.syncTimeout`
influences anything); unsupported extensions are skipped; otherwise the
event is routed to the directional sync for the tree the path lies in. -/
def sync_file_if_needed (cfg : EngineConfig) (fs : FsTimes)
    (st : Finset AbsPath) (p : AbsPath) (now : ℤ) :
    Finset AbsPath × SyncOutcome :=
  if (fs p).isNone then (st, SyncOutcome.skippedMissing)
  else if p ∈ st then (st.erase p, SyncOutcome.skippedRecentlySynced)
  else if !(isMdPath p || isIpynbPath p) then (st, SyncOutcome.skippedUnsupported)
  else if isMdPath p then
    if p.root = cfg.mdDir then
      sync_md_to_ipynb cfg fs st p (AbsPath.mk cfg.ipynbDir (withExt p.rel "ipynb"))
    else (st, SyncOutcome.skippedOutsideDir)
  else
    if p.root = cfg.ipynbDir then
      sync_ipynb_to_md cfg fs st p (AbsPath.mk cfg.mdDir (withExt p.rel "md"))
    else (st, SyncOutcome.skippedOutsideDir)

/-! ## Debounce queue (file_watcher.py)

Times in this section are integer milliseconds, so that the source's
`0.1` second literal is the exact constant 100 and the default
`debounce_delay` of 0.8 s is 800. -/

/-- The `event_type` strings the watcher dispatches. -/
inductive EventKind where
  | created
  | modified
  | deleted
  | moved
deriving DecidableEq, Repr

/-- One value of the `pending_events` dict (file_watcher.py lines
373-385): enqueue timestamp and event kind (the dict key is the path,
which is also stored in the value and omitted here). -/
structure PendingInfo where
  timestamp : ℤ
  kind : EventKind
deriving DecidableEq, Repr

/-- The `pending_events` dict: an association list keyed by path. -/
abbrev PendingMap : Type := List (AbsPath × PendingInfo)

/-- Python dict assignment `pending_events[path] = info`: replace the
entry in place if the key is present, else append. -/
def setPending (q : PendingMap) (k : AbsPath) (v : PendingInfo) : PendingMap :=
  if q.any (fun e => decide (e.1 = k)) then
    q.map (fun e => if e.1 = k then (k, v) else e)
  else q ++ [(k, v)]

/-- `FileWatcher.add_pending_event` (file_watcher.py lines 352-386):
non-md/ipynb paths are ignored; a `deleted` event is stored with
timestamp `now - debounce_delay + 0.1` (here `now - delay + 100` ms) so
it is almost immediately due; any other event is stored with timestamp
`now`. Either way the assignment overwrites any pending entry for the
same path. -/
def add_pending_event (delay : ℤ) (q : PendingMap) (now : ℤ)
    (p : AbsPath) (k : EventKind) : PendingMap :=
  if !(isMdPath p || isIpynbPath p) then q
  else if k = EventKind.deleted then setPending q p ⟨now - delay + 100, k⟩
  else setPending q p ⟨now, k⟩

/-- The drain condition of `process_pending_events` (file_watcher.py
line 413): `current_time - event_info['timestamp'] >= debounce_delay`. -/
def dueB (delay now : ℤ) (info : PendingInfo) : Bool :=
  decide (delay ≤ now - info.timestamp)

/-- The queue effect of `FileWatcher.process_pending_events`
(file_watcher.py lines 399-444): every due entry is handed to the
engine (deletions to `handle_file_deletion`, the rest to
`sync_file_if_needed`) and removed from the queue; entries not yet due
stay. Returns (remaining queue, fired actions in queue order). -/
def process_pending_events (delay now : ℤ) (q : PendingMap) :
    PendingMap × List (AbsPath × PendingInfo) :=
  (q.filter (fun e => !(dueB delay now e.2)),
   q.filter (fun e => dueB delay now e.2))

/-- Enqueue a burst of events for one path, in order. -/
def enqueueAll (delay : ℤ) (p : AbsPath) (q : PendingMap)
    (evs : List (ℤ × EventKind)) : PendingMap :=
  evs.foldl (fun acc ev => add_pending_event delay acc ev.1 p ev.2) q

/-! ## Converter (converter.py) -/

/-- A file as the converter sees it: content, `st_size`, `st_atime`,
`st_mtime`. -/
structure FileData where
  content : String
  size : ℕ
  atime : ℤ
  mtime : ℤ
deriving DecidableEq, Repr

/-- The filesystem the converter reads and writes, keyed by path
strings. -/
def FileSys : Type := String → Option FileData

/-- Point update of the converter filesystem (a file write). -/
def setFileData (fs : FileSys) (p : String) (d : Option FileData) : FileSys :=
  fun q => if q = p then d else fs q

/-- The external text-processing capabilities the converter composes,
over an arbitrary parsed-notebook type `ν`: Markdown-to-notebook-JSON
rendering (`parse_md_to_cells` + `json.dump`), the `strip()` emptiness
test, `json.loads` (`none` models `json.JSONDecodeError`),
`convert_notebook_to_md`, and the error-note Markdown text the code
writes for malformed JSON (converter.py lines 168-169, a function of
the source path and error). -/
structure ContentOps (ν : Type) where
  mdToIpynbText : String → String
  isBlank : String → Bool
  parseJson : String → Option ν
  nbToMd : ν → String
  errorNote : String → String

/-- `Converter.md_to_ipynb` (converter.py lines 30-106): read the
source (a missing source raises, modeled as `none`), render the
notebook JSON, write it to the target and `os.utime` the target to the
source's access and modification times. -/
def md_to_ipynb {ν : Type} (ops : ContentOps ν) (fs : FileSys)
    (mdPath ipynbPath : String) : Option FileSys :=
  match fs mdPath with
  | none => none
  | some src =>
    let c := ops.mdToIpynbText src.content
    some (setFileData fs ipynbPath (some ⟨c, c.length, src.atime, src.mtime⟩))

/-- `Converter.ipynb_to_md` (converter.py lines 108-192): a missing
source raises (`none`); a zero-size source yields an empty target; a
whitespace-only source yields an empty target; a source that fails
`json.loads` yields a target containing the error note (converter.py
lines 165-174 — the write still happens); a parsed notebook yields the
converted Markdown. Every branch ends with `os.utime` copying the
source's access and modification times onto the target. -/
def ipynb_to_md {ν : Type} (ops : ContentOps ν) (fs : FileSys)
    (ipynbPath mdPath : String) : Option FileSys :=
  match fs ipynbPath with
  | none => none
  | some src =>
    if src.size = 0 then
      some (setFileData fs mdPath (some ⟨"", 0, src.atime, src.mtime⟩))
    else if ops.isBlank src.content then
      some (setFileData fs mdPath (some ⟨"", 0, src.atime, src.mtime⟩))
    else
      match ops.parseJson src.content with
      | none =>
        let c := ops.errorNote ipynbPath
        some (setFileData fs mdPath (some ⟨c, c.length, src.atime, src.mtime⟩))
      | some nb =>
        let c := ops.nbToMd nb
        some (setFileData fs mdPath (some ⟨c, c.length, src.atime, src.mtime⟩))

/-! ## Tree scanner (consistency_checker.py `scan_directory`) -/

/-- Metadata recorded per scanned file. -/
structure FileMeta where
  mtime : ℤ
  size : ℕ
deriving DecidableEq, Repr

/-- A directory on disk: named files and named subdirectories. -/
inductive DirTree where
  | node (files : List (String × FileMeta)) (subdirs : List (String × DirTree))

mutual

/-- The `os.walk` traversal of `scan_directory` (consistency_checker.py
lines 88-118): ignored subdirectories are pruned before descent,
ignored files are skipped, every kept file is keyed by its component
path relative to the scan root. -/
def scanTree (ign : String → Bool) : DirTree → List (List String × FileMeta)
  | DirTree.node files subdirs =>
    files.filterMap (fun fm => if ign fm.1 then none else some ([fm.1], fm.2)) ++
    scanSubdirs ign subdirs

/-- Traversal of the subdirectory list of one `os.walk` level; a
subdirectory whose name is ignored is pruned whole. -/
def scanSubdirs (ign : String → Bool) :
    List (String × DirTree) → List (List String × FileMeta)
  | [] => []
  | (d, t) :: rest =>
    (if ign d then [] else (scanTree ign t).map (fun e => (d :: e.1, e.2))) ++
    scanSubdirs ign rest

end

/-- `ConsistencyChecker.scan_directory` (consistency_checker.py lines
67-120): a missing directory (`none`) yields the empty snapshot and a
logged warning (the Bool flag) instead of an error; an existing
directory is walked. -/
def scan_directory (ign : String → Bool) (dir : Option DirTree) :
    List (List String × FileMeta) × Bool :=
  match dir with
  | none => ([], true)
  | some t => (scanTree ign t, false)

/-! ## Shared lemmas -/

theorem lookupA_isSome_of_mem {α β : Type} [DecidableEq α] {k : α} {v : β}
    {l : List (α × β)} (h : (k, v) ∈ l) : (lookupA k l).isSome = true := by
  induction l with
  | nil => simp at h
  | cons e t ih =>
    obtain ⟨k2, v2⟩ := e
    rcases List.mem_cons.mp h with h1 | h2
    · cases h1
      simp [lookupA]
    · by_cases hk : k2 = k <;> simp [lookupA, hk, ih h2]

theorem countP_filterMap_getD {α β : Type} (f : α → Option β) (q : β → Bool)
    (l : List α) :
    (l.filterMap f).countP q = l.countP (fun a => ((f a).map q).getD false) := by
  induction l with
  | nil => rfl
  | cons a t ih =>
    cases hfa : f a <;>
      simp [List.filterMap_cons, hfa, List.countP_cons, ih]

theorem countP_le_one_of_key {α β : Type} (g : α → β) (r : α → Bool) (y : β) :
    ∀ l : List α, (l.map g).Nodup → (∀ a ∈ l, r a = true → g a = y) →
      l.countP r ≤ 1 := by
  intro l
  induction l with
  | nil => intro _ _; simp
  | cons a t ih =>
    intro hnd hr
    rw [List.map_cons, List.nodup_cons] at hnd
    rw [List.countP_cons]
    by_cases hra : r a = true
    · have h0 : t.countP r = 0 := by
        rw [List.countP_eq_zero]
        intro b hb hrb
        have hgb : g b = y := hr b (List.mem_cons_of_mem _ hb) hrb
        have hga : g a = y := hr a (List.mem_cons_self _ _) hra
        exact hnd.1 (by rw [hga, ← hgb]; exact List.mem_map_of_mem g hb)
      simp [hra, h0]
    · have hle := ih hnd.2 (fun b hb hrb => hr b (List.mem_cons_of_mem _ hb) hrb)
      simp only [Bool.not_eq_true] at hra
      simp only [hra]
      simp
      omega

theorem countP_eq_one_of_key {α β : Type} (g : α → β) (r : α → Bool) (y : β)
    (l : List α) (hnd : (l.map g).Nodup)
    (hr : ∀ a ∈ l, r a = true → g a = y)
    (x : α) (hx : x ∈ l) (hrx : r x = true) : l.countP r = 1 := by
  have h1 := countP_le_one_of_key g r y l hnd hr
  have h2 : 0 < l.countP r := List.countP_pos_iff.mpr ⟨x, hx, hrx⟩
  omega

/-! ## Claim theorems -/

/-- C9: `scan_directory` on a directory that does not exist returns the
empty snapshot together with the logged warning, rather than an
error — as a total Lean function it cannot fail. -/
theorem scan_missing_root_empty (ign : String → Bool) :
    scan_directory ign none = ([], true) := rfl

/-- C8: for every pair of scanned snapshots and every configuration,
including `delete_orphaned = true`, `check_consistency` returns empty
`orphaned_md` and `orphaned_ipynb` lists: a recognized file without a
mirror always enters the propagation list of the same plan under the
same `rel_path` key, so the orphan condition never holds. -/
theorem orphan_lists_always_empty (res : ConflictRes) (thr : ℤ)
    (deleteOrphaned : Bool) (mdFiles ipynbFiles : List (RelPath × ℤ)) :
    (checkConsistency res thr deleteOrphaned mdFiles ipynbFiles).orphanedMd = [] ∧
    (checkConsistency res thr deleteOrphaned mdFiles ipynbFiles).orphanedIpynb = [] := by
  constructor
  · show (if deleteOrphaned then _ else _) = ([] : List RelPath)
    split
    · rw [List.filterMap_eq_nil_iff]
      intro pm hpm
      by_cases hmd : isMarkdownRel pm.1
      · simp only [hmd, if_true]
        cases hlk : lookupA (withExt pm.1 "ipynb") ipynbFiles with
        | some im => simp [hlk]
        | none =>
          have hact : (⟨pm.1, none⟩ : SyncAction) ∈
              mdFiles.filterMap (mdLoopToIpynb res thr ipynbFiles) := by
            refine List.mem_filterMap.mpr ⟨pm, hpm, ?_⟩
            simp [mdLoopToIpynb, hmd, hlk]
          have hany : (mdFiles.filterMap (mdLoopToIpynb res thr ipynbFiles)).any
              (fun a => decide (a.relPath = pm.1)) = true :=
            List.any_eq_true.mpr ⟨⟨pm.1, none⟩, hact, by simp⟩
          simp [hlk, hany]
      · simp [hmd]
    · rfl
  · show (if deleteOrphaned then _ else _) = ([] : List RelPath)
    split
    · rw [List.filterMap_eq_nil_iff]
      intro pm hpm
      by_cases hnb : isNotebookRel pm.1
      · simp only [hnb, if_true]
        cases hlk : lookupA (withExt pm.1 "md") mdFiles with
        | some im => simp [hlk]
        | none =>
          have hact : (⟨pm.1, none⟩ : SyncAction) ∈
              ipynbFiles.filterMap (ipynbLoopToMd mdFiles) := by
            refine List.mem_filterMap.mpr ⟨pm, hpm, ?_⟩
            simp [ipynbLoopToMd, hnb, hlk]
          have hany : (mdFiles.filterMap (mdLoopToMd res thr ipynbFiles) ++
              ipynbFiles.filterMap (ipynbLoopToMd mdFiles)).any
              (fun a => decide (a.relPath = pm.1)) = true :=
            List.any_eq_true.mpr
              ⟨⟨pm.1, none⟩, List.mem_append_right _ hact, by simp⟩
          simp [hlk, hany]
      · simp [hnb]
    · rfl

/-- C6: `handle_file_deletion` on a recognized file deletes the mirror
exactly when the mirror exists and `delete_orphaned` is enabled;
otherwise (policy off, or mirror absent) it leaves the filesystem
unchanged and reports the mirror as retained; an unrecognized file is
ignored with no filesystem change. -/
theorem deletion_propagation (cfg : EngineConfig) (fs : FsTimes) (p : AbsPath) :
    ((isMdPath p || isIpynbPath p) = false →
      handleFileDeletion cfg fs p = (fs, DeletionOutcome.ignoredNonTarget)) ∧
    ((isMdPath p || isIpynbPath p) = true →
      ((fs (mirrorOf cfg p)).isSome = true → cfg.deleteOrphaned = true →
        handleFileDeletion cfg fs p =
          (setTime fs (mirrorOf cfg p) none,
           DeletionOutcome.deletedTarget (mirrorOf cfg p)) ∧
        setTime fs (mirrorOf cfg p) none (mirrorOf cfg p) = none) ∧
      (cfg.deleteOrphaned = false ∨ (fs (mirrorOf cfg p)).isSome = false →
        handleFileDeletion cfg fs p =
          (fs, DeletionOutcome.retainedTarget (mirrorOf cfg p)))) := by
  refine ⟨fun hno => ?_, fun hyes => ⟨fun hex hdel => ?_, fun hnot => ?_⟩⟩
  · simp [handleFileDeletion, hno]
  · refine ⟨?_, ?_⟩
    · simp [handleFileDeletion, hyes, hex, hdel]
    · simp [setTime]
  · rcases hnot with hnot | hnot <;>
      simp [handleFileDeletion, hyes, hnot]

theorem mem_insert_of_sync_md (cfg : EngineConfig) (fs : FsTimes)
    (st : Finset AbsPath) (src tgt : AbsPath) (st' : Finset AbsPath)
    (r : SyncOutcome) (h : sync_md_to_ipynb cfg fs st src tgt = (st', r))
    (hr : r = SyncOutcome.syncedMdToIpynb src tgt ∨
          r = SyncOutcome.syncedIpynbToMd src tgt) : tgt ∈ st' := by
  unfold sync_md_to_ipynb at h
  cases htgt : fs tgt with
  | none =>
    simp only [htgt] at h
    cases h
    exact Finset.mem_insert_self _ _
  | some tgtM =>
    simp only [htgt] at h
    cases hres : cfg.res with
    | md =>
      simp only [hres] at h
      cases h
      exact Finset.mem_insert_self _ _
    | ipynb =>
      simp only [hres] at h
      cases h
      simp at hr
    | newer =>
      simp only [hres] at h
      cases hsrc : fs src with
      | none =>
        simp only [hsrc] at h
        cases h
        simp at hr
      | some srcM =>
        simp only [hsrc] at h
        split_ifs at h
        · cases h; simp at hr
        · cases h; simp at hr
        · cases h; exact Finset.mem_insert_self _ _

theorem mem_insert_of_sync_ipynb (cfg : EngineConfig) (fs : FsTimes)
    (st : Finset AbsPath) (src tgt : AbsPath) (st' : Finset AbsPath)
    (r : SyncOutcome) (h : sync_ipynb_to_md cfg fs st src tgt = (st', r))
    (hr : r = SyncOutcome.syncedMdToIpynb src tgt ∨
          r = SyncOutcome.syncedIpynbToMd src tgt) : tgt ∈ st' := by
  unfold sync_ipynb_to_md at h
  cases htgt : fs tgt with
  | none =>
    simp only [htgt] at h
    cases h
    exact Finset.mem_insert_self _ _
  | some tgtM =>
    simp only [htgt] at h
    cases hres : cfg.res with
    | ipynb =>
      simp only [hres] at h
      cases h
      exact Finset.mem_insert_self _ _
    | md =>
      simp only [hres] at h
      cases h
      simp at hr
    | newer =>
      simp only [hres] at h
      cases hsrc : fs src with
      | none =>
        simp only [hsrc] at h
        cases h
        simp at hr
      | some srcM =>
        simp only [hsrc] at h
        split_ifs at h
        · cases h; simp at hr
        · cases h; simp at hr
        · cases h; exact Finset.mem_insert_self _ _

theorem suppressed_of_recently_synced (cfg : EngineConfig) (fs2 : FsTimes)
    (st' : Finset AbsPath) (tgt : AbsPath) (now2 : ℤ)
    (hmem : tgt ∈ st') (hex : (fs2 tgt).isSome = true) :
    sync_file_if_needed cfg fs2 st' tgt now2 =
      (st'.erase tgt, SyncOutcome.skippedRecentlySynced) := by
  obtain ⟨v, hv⟩ := Option.isSome_iff_exists.mp hex
  simp [sync_file_if_needed, hv, hmem]

/-- C3: after either directional sync proceeds to a propagation (so the
engine writes target `tgt`, having first recorded it in
`recently_synced`), the next inbound change event for exactly `tgt` —
in particular one arriving within the sync-timeout window — is
suppressed: `sync_file_if_needed` removes the guard entry and returns
without syncing, so the engine's own write triggers no reverse
propagation. -/
theorem echo_suppression_after_sync (cfg : EngineConfig) (fs fs2 : FsTimes)
    (st : Finset AbsPath) (src tgt : AbsPath) (st' : Finset AbsPath)
    (r : SyncOutcome) (now2 : ℤ)
    (hrun : sync_md_to_ipynb cfg fs st src tgt = (st', r) ∨
            sync_ipynb_to_md cfg fs st src tgt = (st', r))
    (hsynced : r = SyncOutcome.syncedMdToIpynb src tgt ∨
               r = SyncOutcome.syncedIpynbToMd src tgt)
    (hex : (fs2 tgt).isSome = true) :
    tgt ∈ st' ∧
    sync_file_if_needed cfg fs2 st' tgt now2 =
      (st'.erase tgt, SyncOutcome.skippedRecentlySynced) := by
  have hmem : tgt ∈ st' := by
    rcases hrun with h | h
    · exact mem_insert_of_sync_md cfg fs st src tgt st' r h hsynced
    · exact mem_insert_of_sync_ipynb cfg fs st src tgt st' r h hsynced
  exact ⟨hmem, suppressed_of_recently_synced cfg fs2 st' tgt now2 hmem hex⟩

theorem sync_md_to_ipynb_snd_ne_echo (cfg : EngineConfig) (fs : FsTimes)
    (st : Finset AbsPath) (src tgt : AbsPath) :
    (sync_md_to_ipynb cfg fs st src tgt).2 ≠
      SyncOutcome.skippedRecentlySynced := by
  unfold sync_md_to_ipynb
  repeat' split
  all_goals simp

theorem sync_ipynb_to_md_snd_ne_echo (cfg : EngineConfig) (fs : FsTimes)
    (st : Finset AbsPath) (src tgt : AbsPath) :
    (sync_ipynb_to_md cfg fs st src tgt).2 ≠
      SyncOutcome.skippedRecentlySynced := by
  unfold sync_ipynb_to_md
  repeat' split
  all_goals simp

theorem not_suppressed_of_not_mem (cfg : EngineConfig) (fs : FsTimes)
    (st : Finset AbsPath) (p : AbsPath) (now : ℤ) (hnm : p ∉ st) :
    (sync_file_if_needed cfg fs st p now).2 ≠
      SyncOutcome.skippedRecentlySynced := by
  unfold sync_file_if_needed
  cases fs p with
  | none => simp
  | some v =>
    simp only [Option.isNone_some, Bool.false_eq_true, if_false, hnm, if_neg,
      not_false_eq_true]
    split_ifs with h1 h2 h3 h4
    · simp
    · exact sync_md_to_ipynb_snd_ne_echo cfg fs st p _
    · simp
    · exact sync_ipynb_to_md_snd_ne_echo cfg fs st p _
    · simp

/-- C10: the echo guard is one-shot and not time-bounded: the result of
`sync_file_if_needed` does not depend on the current time or on the
`sync_timeout` field; when `p` is in `recently_synced` the call removes
it and suppresses the event; once removed, `p` is no longer in the set,
so a second change event for the same path — after any elapsed time —
is not suppressed. -/
theorem echo_guard_oneshot_untimed (cfg : EngineConfig) (fs fs2 : FsTimes)
    (st : Finset AbsPath) (p : AbsPath) (now now2 t1 t2 : ℤ)
    (hmem : p ∈ st) (hex : (fs p).isSome = true) :
    (sync_file_if_needed cfg fs st p now =
     sync_file_if_needed cfg fs st p now2) ∧
    (sync_file_if_needed { cfg with syncTimeout := t1 } fs st p now =
     sync_file_if_needed { cfg with syncTimeout := t2 } fs st p now) ∧
    sync_file_if_needed cfg fs st p now =
      (st.erase p, SyncOutcome.skippedRecentlySynced) ∧
    p ∉ st.erase p ∧
    (sync_file_if_needed cfg fs2 (st.erase p) p now2).2 ≠
      SyncOutcome.skippedRecentlySynced := by
  refine ⟨rfl, rfl,
    suppressed_of_recently_synced cfg fs st p now hmem hex,
    Finset.not_mem_erase p st,
    not_suppressed_of_not_mem cfg fs2 (st.erase p) p now2
      (Finset.not_mem_erase p st)⟩

/-- C5: after every successful propagation — in either direction and
in every branch of `ipynb_to_md` (empty source, blank source,
malformed JSON, parsed notebook) as well as for a new target file —
the target's access and modification times equal the source's; a pair
of equal mtimes has difference zero, below any positive threshold, so
the checker's per-pair decision takes no action for it. -/
theorem converter_equalizes_timestamps {ν : Type} (ops : ContentOps ν)
    (fs1 fs2 : FileSys) (a1 b1 a2 b2 : String) (g1 g2 : FileSys)
    (res : ConflictRes) (thr m : ℤ)
    (h1 : md_to_ipynb ops fs1 a1 b1 = some g1)
    (h2 : ipynb_to_md ops fs2 a2 b2 = some g2)
    (hthr : 0 < thr) :
    (∃ s1 d1, fs1 a1 = some s1 ∧ g1 b1 = some d1 ∧
      d1.atime = s1.atime ∧ d1.mtime = s1.mtime) ∧
    (∃ s2 d2, fs2 a2 = some s2 ∧ g2 b2 = some d2 ∧
      d2.atime = s2.atime ∧ d2.mtime = s2.mtime) ∧
    pairDecision res thr m m = none := by
  refine ⟨?_, ?_, ?_⟩
  · unfold md_to_ipynb at h1
    cases hs : fs1 a1 with
    | none => simp [hs] at h1
    | some src =>
      simp only [hs, Option.some_inj] at h1
      subst h1
      exact ⟨src,
        ⟨ops.mdToIpynbText src.content, (ops.mdToIpynbText src.content).length,
          src.atime, src.mtime⟩,
        rfl, by simp [setFileData], rfl, rfl⟩
  · unfold ipynb_to_md at h2
    cases hs : fs2 a2 with
    | none => simp [hs] at h2
    | some src =>
      simp only [hs] at h2
      split_ifs at h2
      · rw [Option.some_inj] at h2
        subst h2
        exact ⟨src, ⟨"", 0, src.atime, src.mtime⟩, rfl,
          by simp [setFileData], rfl, rfl⟩
      · rw [Option.some_inj] at h2
        subst h2
        exact ⟨src, ⟨"", 0, src.atime, src.mtime⟩, rfl,
          by simp [setFileData], rfl, rfl⟩
      · cases hj : ops.parseJson src.content with
        | none =>
          simp only [hj, Option.some_inj] at h2
          subst h2
          exact ⟨src,
            ⟨ops.errorNote a2, (ops.errorNote a2).length, src.atime, src.mtime⟩,
            rfl, by simp [setFileData], rfl, rfl⟩
        | some nb =>
          simp only [hj, Option.some_inj] at h2
          subst h2
          exact ⟨src,
            ⟨ops.nbToMd nb, (ops.nbToMd nb).length, src.atime, src.mtime⟩,
            rfl, by simp [setFileData], rfl, rfl⟩
  · simp [pairDecision, absI, hthr]

/-- C2 counterexample: with `conflict_resolution = 'ipynb'`, a mirrored
pair whose MD side is 10 seconds newer (threshold 5) is scheduled
MD→IPYNB by `check_consistency` — the `md_mtime > ipynb_mtime` test in
the first branch fires before the `'ipynb'` preference is ever
consulted — and no IPYNB→MD action is produced, contradicting the
claim that the force-B value propagates IPYNB to MD outright. -/
theorem force_ipynb_not_outright_cex :
    (checkConsistency ConflictRes.ipynb 5 false
      [(⟨[], "a", "md"⟩, 10)] [(⟨[], "a", "ipynb"⟩, 0)]).ipynbToMd = [] ∧
    (checkConsistency ConflictRes.ipynb 5 false
      [(⟨[], "a", "md"⟩, 10)] [(⟨[], "a", "ipynb"⟩, 0)]).mdToIpynb =
      [⟨⟨[], "a", "md"⟩, some 10⟩] := by
  exact ⟨by decide, by decide⟩

/-- C2 (amended): `'md'` forces MD→IPYNB outright in both the checker
and the engine; `'ipynb'` forces outright only at the engine level
(`sync_md_to_ipynb` skips when the target exists, `sync_ipynb_to_md`
always proceeds); in the checker the `newer-or-'md'` branch is tested
first, so under `'ipynb'` a pair whose MD side is strictly newer is
still scheduled MD→IPYNB, and IPYNB→MD results only when the IPYNB
side is strictly newer. -/
theorem conflict_force_precedence (thr a b : ℤ)
    (cfg1 cfg2 : EngineConfig) (fs1 fs2 : FsTimes) (st1 st2 : Finset AbsPath)
    (src1 tgt1 src2 tgt2 : AbsPath) (t1 t2 : ℤ)
    (hd : thr ≤ absI (a - b))
    (hres1 : cfg1.res = ConflictRes.md) (hres2 : cfg2.res = ConflictRes.ipynb)
    (hex1 : fs1 tgt1 = some t1) (hex2 : fs2 tgt2 = some t2) :
    pairDecision ConflictRes.md thr a b = some SyncDir.dirMdToIpynb ∧
    (a > b → pairDecision ConflictRes.ipynb thr a b =
      some SyncDir.dirMdToIpynb) ∧
    (a < b → pairDecision ConflictRes.ipynb thr a b =
      some SyncDir.dirIpynbToMd) ∧
    sync_md_to_ipynb cfg1 fs1 st1 src1 tgt1 =
      (insert tgt1 st1, SyncOutcome.syncedMdToIpynb src1 tgt1) ∧
    (sync_ipynb_to_md cfg1 fs1 st1 src1 tgt1).2 =
      SyncOutcome.skippedPreferOther ∧
    (sync_md_to_ipynb cfg2 fs2 st2 src2 tgt2).2 =
      SyncOutcome.skippedPreferOther ∧
    sync_ipynb_to_md cfg2 fs2 st2 src2 tgt2 =
      (insert tgt2 st2, SyncOutcome.syncedIpynbToMd src2 tgt2) := by
  have hnlt : ¬ absI (a - b) < thr := not_lt.mpr hd
  refine ⟨?_, fun hab => ?_, fun hab => ?_, ?_, ?_, ?_, ?_⟩
  · simp [pairDecision, hnlt]
  · simp [pairDecision, hnlt, hab]
  · have hnot : ¬ (a > b ∨ ConflictRes.ipynb = ConflictRes.md) := by
      rintro (h | h)
      · omega
      · cases h
    simp [pairDecision, hnlt, hnot, hab]
    omega
  · unfold sync_md_to_ipynb
    simp [hex1, hres1]
  · unfold sync_ipynb_to_md
    simp [hex1, hres1]
  · unfold sync_md_to_ipynb
    simp [hex2, hres2]
  · unfold sync_ipynb_to_md
    simp [hex2, hres2]

/-- Concrete text-processing capabilities used by the converter
fixtures: a JSON parser that fails on every input (modeling malformed
content), trivial rendering functions. -/
def opsFix : ContentOps Unit where
  mdToIpynbText := fun s => "nb:" ++ s
  isBlank := fun s => decide (s = "")
  parseJson := fun _ => none
  nbToMd := fun _ => ""
  errorNote := fun p => "# JSON error in " ++ p

/-- A one-file filesystem holding a non-empty `.ipynb` whose content is
not valid JSON. -/
def fsBadJson : FileSys :=
  fun q => if q = "n.ipynb" then some ⟨"not json", 8, 3, 4⟩ else none

/-- The filesystem after `ipynb_to_md` runs on `fsBadJson`: the target
holds the error note, timestamps copied from the source. -/
def fsBadJsonResult : FileSys :=
  setFileData fsBadJson "n.md"
    (some ⟨"# JSON error in n.ipynb", ("# JSON error in n.ipynb").length, 3, 4⟩)

/-- C7 counterexample: on a non-empty `.ipynb` whose content is not
valid JSON, `ipynb_to_md` does **not** abandon the action: it returns
success and the target file is written (with the error note), directly
contradicting "no target file is written". -/
theorem badjson_target_written_cex :
    ipynb_to_md opsFix fsBadJson "n.ipynb" "n.md" = some fsBadJsonResult ∧
    (fsBadJsonResult "n.md").isSome = true := ⟨rfl, rfl⟩

/-- C7 (amended): on a non-empty, non-blank source whose content fails
JSON parsing, `ipynb_to_md` catches the decode error, writes a
Markdown target holding the error note with the source's timestamps
copied onto it, and returns success; only a missing source propagates
an exception (modeled `none`) so that no target is written and the
engine logs the failure with source and target paths, leaving the path
eligible for retry. -/
theorem badjson_writes_error_note {ν : Type} (ops : ContentOps ν)
    (fs fs2 : FileSys) (src tgt src2 tgt2 : String) (d : FileData)
    (hsrc : fs src = some d) (hsz : ¬ d.size = 0)
    (hbl : ops.isBlank d.content = false)
    (hjson : ops.parseJson d.content = none)
    (hmiss : fs2 src2 = none) :
    ipynb_to_md ops fs src tgt =
      some (setFileData fs tgt (some ⟨ops.errorNote src,
        (ops.errorNote src).length, d.atime, d.mtime⟩)) ∧
    ipynb_to_md ops fs2 src2 tgt2 = none := by
  constructor
  · unfold ipynb_to_md
    simp [hsrc, hsz, hbl, hjson]
  · unfold ipynb_to_md
    simp [hmiss]

/-! ## Concrete fixtures for the witnesses -/

/-- Relative path of `a.md`. -/
def relMdA : RelPath := ⟨[], "a", "md"⟩

/-- Relative path of `a.ipynb`. -/
def relNbA : RelPath := ⟨[], "a", "ipynb"⟩

/-- Engine configuration: newer-wins, threshold 5, deletion enabled. -/
def cfgOn : EngineConfig := ⟨"mdroot", "nbroot", ConflictRes.newer, 5, true, 5⟩

/-- Same as `cfgOn` with `delete_orphaned` disabled. -/
def cfgOff : EngineConfig := ⟨"mdroot", "nbroot", ConflictRes.newer, 5, false, 5⟩

/-- Configuration forcing the MD side. -/
def cfgForceMd : EngineConfig := ⟨"mdroot", "nbroot", ConflictRes.md, 5, true, 5⟩

/-- Configuration forcing the IPYNB side. -/
def cfgForceNb : EngineConfig := ⟨"mdroot", "nbroot", ConflictRes.ipynb, 5, true, 5⟩

/-- `a.md` in the MD tree. -/
def pMd : AbsPath := ⟨"mdroot", relMdA⟩

/-- `a.ipynb` in the IPYNB tree. -/
def pNb : AbsPath := ⟨"nbroot", relNbA⟩

/-- Engine-view filesystem holding only the MD file (mtime 10). -/
def fsOnlyMd : FsTimes :=
  fun q => if q = pMd then some 10 else none

/-- Engine-view filesystem holding both files (MD newer by 10 s). -/
def fsBothT : FsTimes :=
  fun q => if q = pMd then some 10 else if q = pNb then some 0 else none

/-- Witness for C10 at the fixtures: the echo-guard suppression is
independent of the time arguments and of `sync_timeout`, fires once,
and the second event for the same path is not suppressed. -/
theorem echo_guard_oneshot_untimed_witness :
    (sync_file_if_needed cfgOn fsBothT (insert pMd ∅) pMd 0 =
     sync_file_if_needed cfgOn fsBothT (insert pMd ∅) pMd 999999) ∧
    (sync_file_if_needed { cfgOn with syncTimeout := 0 } fsBothT
        (insert pMd ∅) pMd 0 =
     sync_file_if_needed { cfgOn with syncTimeout := 777 } fsBothT
        (insert pMd ∅) pMd 0) ∧
    sync_file_if_needed cfgOn fsBothT (insert pMd ∅) pMd 0 =
      ((insert pMd ∅ : Finset AbsPath).erase pMd,
       SyncOutcome.skippedRecentlySynced) ∧
    pMd ∉ (insert pMd ∅ : Finset AbsPath).erase pMd ∧
    (sync_file_if_needed cfgOn fsBothT ((insert pMd ∅ : Finset AbsPath).erase pMd)
      pMd 999999).2 ≠ SyncOutcome.skippedRecentlySynced :=
  echo_guard_oneshot_untimed cfgOn fsBothT fsBothT (insert pMd ∅) pMd
    0 999999 0 777 (Finset.mem_insert_self _ _) (by decide)

/-- Witness for C3 at the fixtures: a new-file MD→IPYNB propagation
records the target, and the next event for that exact target is
suppressed. -/
theorem echo_suppression_after_sync_witness :
    pNb ∈ insert pNb (∅ : Finset AbsPath) ∧
    sync_file_if_needed cfgOn fsBothT (insert pNb ∅) pNb 3 =
      ((insert pNb ∅ : Finset AbsPath).erase pNb,
       SyncOutcome.skippedRecentlySynced) :=
  echo_suppression_after_sync cfgOn fsOnlyMd fsBothT ∅ pMd pNb
    (insert pNb ∅) (SyncOutcome.syncedMdToIpynb pMd pNb) 3
    (Or.inl (by decide)) (Or.inl rfl) (by decide)

/-- Witness for C6 at the fixtures: with the mirror present, deletion
of `a.md` deletes `a.ipynb` when `delete_orphaned` is on and retains it
when off. -/
theorem deletion_propagation_witness :
    (handleFileDeletion cfgOn fsBothT pMd =
      (setTime fsBothT (mirrorOf cfgOn pMd) none,
       DeletionOutcome.deletedTarget (mirrorOf cfgOn pMd)) ∧
     setTime fsBothT (mirrorOf cfgOn pMd) none (mirrorOf cfgOn pMd) = none) ∧
    handleFileDeletion cfgOff fsBothT pMd =
      (fsBothT, DeletionOutcome.retainedTarget (mirrorOf cfgOff pMd)) := by
  constructor
  · exact ((deletion_propagation cfgOn fsBothT pMd).2 (by decide)).1
      (by decide) (by decide)
  · exact ((deletion_propagation cfgOff fsBothT pMd).2 (by decide)).2
      (Or.inl (by decide))

/-- Witness for C2 (amended) at the fixtures: threshold 5, MD mtime 10,
IPYNB mtime 0. -/
theorem conflict_force_precedence_witness :
    pairDecision ConflictRes.md 5 10 0 = some SyncDir.dirMdToIpynb ∧
    ((10 : ℤ) > 0 → pairDecision ConflictRes.ipynb 5 10 0 =
      some SyncDir.dirMdToIpynb) ∧
    ((10 : ℤ) < 0 → pairDecision ConflictRes.ipynb 5 10 0 =
      some SyncDir.dirIpynbToMd) ∧
    sync_md_to_ipynb cfgForceMd fsBothT ∅ pMd pNb =
      (insert pNb ∅, SyncOutcome.syncedMdToIpynb pMd pNb) ∧
    (sync_ipynb_to_md cfgForceMd fsBothT ∅ pMd pNb).2 =
      SyncOutcome.skippedPreferOther ∧
    (sync_md_to_ipynb cfgForceNb fsBothT ∅ pNb pMd).2 =
      SyncOutcome.skippedPreferOther ∧
    sync_ipynb_to_md cfgForceNb fsBothT ∅ pNb pMd =
      (insert pMd ∅, SyncOutcome.syncedIpynbToMd pNb pMd) :=
  conflict_force_precedence 5 10 0 cfgForceMd cfgForceNb fsBothT fsBothT
    ∅ ∅ pMd pNb pNb pMd 0 10 (by decide) rfl rfl (by decide) (by decide)

/-- Filesystem for the converter witness: one Markdown source. -/
def fsMd5 : FileSys :=
  fun q => if q = "a.md" then some ⟨"hello", 5, 7, 9⟩ else none

/-- Filesystem for the converter witness: one empty notebook source. -/
def fsNb5 : FileSys :=
  fun q => if q = "b.ipynb" then some ⟨"", 0, 2, 3⟩ else none

/-- `fsMd5` after `md_to_ipynb` writes the target. -/
def fsMd5After : FileSys :=
  setFileData fsMd5 "a.ipynb" (some ⟨"nb:hello", 8, 7, 9⟩)

/-- `fsNb5` after `ipynb_to_md` writes the (empty) target. -/
def fsNb5After : FileSys :=
  setFileData fsNb5 "b.md" (some ⟨"", 0, 2, 3⟩)

/-- Witness for C5 at the fixtures: both propagation directions leave
the target with the source's timestamps, and the zero difference is
below the threshold 5. -/
theorem converter_equalizes_timestamps_witness :
    (∃ s1 d1, fsMd5 "a.md" = some s1 ∧ fsMd5After "a.ipynb" = some d1 ∧
      d1.atime = s1.atime ∧ d1.mtime = s1.mtime) ∧
    (∃ s2 d2, fsNb5 "b.ipynb" = some s2 ∧ fsNb5After "b.md" = some d2 ∧
      d2.atime = s2.atime ∧ d2.mtime = s2.mtime) ∧
    pairDecision ConflictRes.newer 5 9 9 = none :=
  converter_equalizes_timestamps opsFix fsMd5 fsNb5 "a.md" "a.ipynb"
    "b.ipynb" "b.md" fsMd5After fsNb5After ConflictRes.newer 5 9
    rfl rfl (by decide)

/-- Witness for C7 (amended) at the fixtures: the malformed-JSON source
yields a written error-note target; a missing source yields `none`. -/
theorem badjson_writes_error_note_witness :
    ipynb_to_md opsFix fsBadJson "n.ipynb" "n.md" =
      some (setFileData fsBadJson "n.md"
        (some ⟨opsFix.errorNote "n.ipynb",
          (opsFix.errorNote "n.ipynb").length, 3, 4⟩)) ∧
    ipynb_to_md opsFix fsBadJson "m.ipynb" "m.md" = none :=
  badjson_writes_error_note opsFix fsBadJson fsBadJson "n.ipynb" "n.md"
    "m.ipynb" "m.md" ⟨"not json", 8, 3, 4⟩ (by decide) (by decide)
    (by decide) rfl (by decide)

theorem mdLoopToIpynb_relPath (res : ConflictRes) (thr : ℤ)
    (ipynbFiles : List (RelPath × ℤ)) (pm : RelPath × ℤ) (x : SyncAction)
    (h : mdLoopToIpynb res thr ipynbFiles pm = some x) : x.relPath = pm.1 := by
  unfold mdLoopToIpynb at h
  by_cases hm : isMarkdownRel pm.1
  · simp only [hm, if_true] at h
    cases hlk : lookupA (withExt pm.1 "ipynb") ipynbFiles with
    | none =>
      simp only [hlk, Option.some_inj] at h
      rw [← h]
    | some im =>
      simp only [hlk] at h
      cases hpd : pairDecision res thr pm.2 im with
      | none => simp [hpd] at h
      | some dir =>
        cases dir with
        | dirMdToIpynb =>
          simp only [hpd, Option.some_inj] at h
          rw [← h]
        | dirIpynbToMd => simp [hpd] at h
  · simp [hm] at h

theorem mdLoopToMd_relPath (res : ConflictRes) (thr : ℤ)
    (ipynbFiles : List (RelPath × ℤ)) (pm : RelPath × ℤ) (x : SyncAction)
    (h : mdLoopToMd res thr ipynbFiles pm = some x) :
    x.relPath = withExt pm.1 "ipynb" := by
  unfold mdLoopToMd at h
  by_cases hm : isMarkdownRel pm.1
  · simp only [hm, if_true] at h
    cases hlk : lookupA (withExt pm.1 "ipynb") ipynbFiles with
    | none => simp [hlk] at h
    | some im =>
      simp only [hlk] at h
      cases hpd : pairDecision res thr pm.2 im with
      | none => simp [hpd] at h
      | some dir =>
        cases dir with
        | dirMdToIpynb => simp [hpd] at h
        | dirIpynbToMd =>
          simp only [hpd, Option.some_inj] at h
          rw [← h]
  · simp [hm] at h

theorem ipynbLoopToMd_parts (mdFiles : List (RelPath × ℤ))
    (pm : RelPath × ℤ) (x : SyncAction)
    (h : ipynbLoopToMd mdFiles pm = some x) :
    x.relPath = pm.1 ∧ lookupA (withExt pm.1 "md") mdFiles = none := by
  unfold ipynbLoopToMd at h
  by_cases hn : isNotebookRel pm.1
  · simp only [hn, if_true] at h
    cases hlk : lookupA (withExt pm.1 "md") mdFiles with
    | none =>
      simp only [hlk, Option.some_inj] at h
      exact ⟨by rw [← h], rfl⟩
    | some v => simp [hlk] at h
  · simp [hn] at h

/-- C1: the proximity law of reconciliation under `'newer'`: for a
mirrored pair (`p` with extension `md` in the MD snapshot, its mirror
in the IPYNB snapshot), when the mtime difference is below the
threshold `check_consistency` schedules no action for the pair in
either direction; when it is at or above a positive threshold the two
mtimes differ and exactly one directional action is produced, from the
side with the larger mtime to the other. Snapshot well-formedness: no
two MD entries share a mirror key (Python dict keys are unique). -/
theorem checker_proximity_law (thr : ℤ) (del : Bool)
    (mdFiles ipynbFiles : List (RelPath × ℤ)) (p : RelPath) (a b : ℤ)
    (hthr : 0 < thr)
    (hndM : (mdFiles.map (fun pm => withExt pm.1 "ipynb")).Nodup)
    (hmem : (p, a) ∈ mdFiles)
    (hext : p.ext = "md")
    (hlook : lookupA (withExt p "ipynb") ipynbFiles = some b) :
    (absI (a - b) < thr →
      (checkConsistency ConflictRes.newer thr del mdFiles ipynbFiles).mdToIpynb.countP
        (fun x => decide (x.relPath = p)) = 0 ∧
      (checkConsistency ConflictRes.newer thr del mdFiles ipynbFiles).ipynbToMd.countP
        (fun x => decide (x.relPath = withExt p "ipynb")) = 0) ∧
    (thr ≤ absI (a - b) →
      ¬ a = b ∧
      (b < a →
        (checkConsistency ConflictRes.newer thr del mdFiles ipynbFiles).mdToIpynb.countP
          (fun x => decide (x.relPath = p)) = 1 ∧
        (checkConsistency ConflictRes.newer thr del mdFiles ipynbFiles).ipynbToMd.countP
          (fun x => decide (x.relPath = withExt p "ipynb")) = 0) ∧
      (a < b →
        (checkConsistency ConflictRes.newer thr del mdFiles ipynbFiles).mdToIpynb.countP
          (fun x => decide (x.relPath = p)) = 0 ∧
        (checkConsistency ConflictRes.newer thr del mdFiles ipynbFiles).ipynbToMd.countP
          (fun x => decide (x.relPath = withExt p "ipynb")) = 1)) := by
  have hplanM : (checkConsistency ConflictRes.newer thr del mdFiles ipynbFiles).mdToIpynb
      = mdFiles.filterMap (mdLoopToIpynb ConflictRes.newer thr ipynbFiles) := rfl
  have hplanI : (checkConsistency ConflictRes.newer thr del mdFiles ipynbFiles).ipynbToMd
      = mdFiles.filterMap (mdLoopToMd ConflictRes.newer thr ipynbFiles) ++
        ipynbFiles.filterMap (ipynbLoopToMd mdFiles) := rfl
  have hisMd : isMarkdownRel p = true := by
    unfold isMarkdownRel
    rw [hext]
    decide
  have hwx : withExt (withExt p "ipynb") "md" = p := by
    cases p
    simp only [withExt] at hext ⊢
    simp [hext]
  have hinj : ∀ pm ∈ mdFiles, withExt pm.1 "ipynb" = withExt p "ipynb" →
      pm = (p, a) := fun pm hpm heq =>
    List.inj_on_of_nodup_map hndM hpm hmem heq
  have hlookMd : (lookupA p mdFiles).isSome = true := lookupA_isSome_of_mem hmem
  have hl2 : (ipynbFiles.filterMap (ipynbLoopToMd mdFiles)).countP
      (fun x => decide (x.relPath = withExt p "ipynb")) = 0 := by
    rw [List.countP_eq_zero]
    intro x hx hqx
    obtain ⟨pm, hpm, hf⟩ := List.mem_filterMap.mp hx
    obtain ⟨hrel, hnone⟩ := ipynbLoopToMd_parts mdFiles pm x hf
    have hx1 : x.relPath = withExt p "ipynb" := of_decide_eq_true hqx
    rw [hrel] at hx1
    rw [hx1, hwx] at hnone
    rw [hnone] at hlookMd
    simp at hlookMd
  have hMzero : pairDecision ConflictRes.newer thr a b ≠
      some SyncDir.dirMdToIpynb →
      (mdFiles.filterMap (mdLoopToIpynb ConflictRes.newer thr ipynbFiles)).countP
        (fun x => decide (x.relPath = p)) = 0 := by
    intro hpd
    rw [List.countP_eq_zero]
    intro x hx hqx
    obtain ⟨pm, hpm, hf⟩ := List.mem_filterMap.mp hx
    have hx1 : x.relPath = p := of_decide_eq_true hqx
    have hrel := mdLoopToIpynb_relPath _ _ _ _ _ hf
    have hpma : pm = (p, a) := hinj pm hpm (by rw [← hrel, hx1])
    rw [hpma] at hf
    rw [mdLoopToIpynb] at hf
    simp only [hisMd, if_true, hlook] at hf
    cases hq : pairDecision ConflictRes.newer thr a b with
    | none => simp at hf
    | some dir =>
      cases dir with
      | dirMdToIpynb => exact hpd hq
      | dirIpynbToMd => simp at hf
  have hIzero : pairDecision ConflictRes.newer thr a b ≠
      some SyncDir.dirIpynbToMd →
      (mdFiles.filterMap (mdLoopToMd ConflictRes.newer thr ipynbFiles)).countP
        (fun x => decide (x.relPath = withExt p "ipynb")) = 0 := by
    intro hpd
    rw [List.countP_eq_zero]
    intro x hx hqx
    obtain ⟨pm, hpm, hf⟩ := List.mem_filterMap.mp hx
    have hx1 : x.relPath = withExt p "ipynb" := of_decide_eq_true hqx
    have hrel := mdLoopToMd_relPath _ _ _ _ _ hf
    have hpma : pm = (p, a) := hinj pm hpm (by rw [← hrel, hx1])
    rw [hpma] at hf
    rw [mdLoopToMd] at hf
    simp only [hisMd, if_true, hlook] at hf
    cases hq : pairDecision ConflictRes.newer thr a b with
    | none => simp at hf
    | some dir =>
      cases dir with
      | dirIpynbToMd => exact hpd hq
      | dirMdToIpynb => simp at hf
  refine ⟨fun hlt => ?_, fun hge => ?_⟩
  · have hpd : pairDecision ConflictRes.newer thr a b = none := by
      unfold pairDecision
      rw [if_pos hlt]
    refine ⟨?_, ?_⟩
    · rw [hplanM]
      exact hMzero (by rw [hpd]; intro h; cases h)
    · rw [hplanI, List.countP_append]
      rw [hIzero (by rw [hpd]; intro h; cases h), hl2]
  · have hne : ¬ a = b := by
      intro he
      rw [he, sub_self] at hge
      simp [absI] at hge
      omega
    have hnlt := not_lt.mpr hge
    refine ⟨hne, fun hba => ?_, fun hab => ?_⟩
    · have hpd : pairDecision ConflictRes.newer thr a b =
          some SyncDir.dirMdToIpynb := by
        unfold pairDecision
        rw [if_neg hnlt, if_pos (Or.inl hba)]
      refine ⟨?_, ?_⟩
      · rw [hplanM, countP_filterMap_getD]
        have hfact : ∀ pm ∈ mdFiles,
            ((mdLoopToIpynb ConflictRes.newer thr ipynbFiles pm).map
              (fun x => decide (x.relPath = p))).getD false = true →
            withExt pm.1 "ipynb" = withExt p "ipynb" := by
          intro pm hpm hr
          cases hf : mdLoopToIpynb ConflictRes.newer thr ipynbFiles pm with
          | none => rw [hf] at hr; simp at hr
          | some x =>
            rw [hf] at hr
            simp at hr
            have hrel := mdLoopToIpynb_relPath _ _ _ _ _ hf
            rw [← hrel, hr]
        have hval : ((mdLoopToIpynb ConflictRes.newer thr ipynbFiles (p, a)).map
              (fun x => decide (x.relPath = p))).getD false = true := by
          rw [mdLoopToIpynb]
          simp only [hisMd, if_true, hlook, hpd]
          simp
        exact countP_eq_one_of_key (fun pm => withExt pm.1 "ipynb") _
          (withExt p "ipynb") mdFiles hndM hfact (p, a) hmem hval
      · rw [hplanI, List.countP_append]
        rw [hIzero (by rw [hpd]; intro h; cases h), hl2]
    · have hnotor : ¬ (a > b ∨ ConflictRes.newer = ConflictRes.md) := by
        rintro (h | h)
        · omega
        · cases h
      have hpd : pairDecision ConflictRes.newer thr a b =
          some SyncDir.dirIpynbToMd := by
        unfold pairDecision
        rw [if_neg hnlt, if_neg hnotor, if_pos (Or.inl hab)]
      refine ⟨?_, ?_⟩
      · rw [hplanM]
        exact hMzero (by rw [hpd]; intro h; cases h)
      · rw [hplanI, List.countP_append, hl2]
        have h1 : (mdFiles.filterMap (mdLoopToMd ConflictRes.newer thr ipynbFiles)).countP
            (fun x => decide (x.relPath = withExt p "ipynb")) = 1 := by
          rw [countP_filterMap_getD]
          have hfact : ∀ pm ∈ mdFiles,
              ((mdLoopToMd ConflictRes.newer thr ipynbFiles pm).map
                (fun x => decide (x.relPath = withExt p "ipynb"))).getD false = true →
              withExt pm.1 "ipynb" = withExt p "ipynb" := by
            intro pm hpm hr
            cases hf : mdLoopToMd ConflictRes.newer thr ipynbFiles pm with
            | none => rw [hf] at hr; simp at hr
            | some x =>
              rw [hf] at hr
              simp at hr
              have hrel := mdLoopToMd_relPath _ _ _ _ _ hf
              rw [← hrel, hr]
          have hval : ((mdLoopToMd ConflictRes.newer thr ipynbFiles (p, a)).map
                (fun x => decide (x.relPath = withExt p "ipynb"))).getD false = true := by
            rw [mdLoopToMd]
            simp only [hisMd, if_true, hlook, hpd]
            simp
          exact countP_eq_one_of_key (fun pm => withExt pm.1 "ipynb") _
            (withExt p "ipynb") mdFiles hndM hfact (p, a) hmem hval
        rw [h1]

/-- Witness for C1 at concrete snapshots: `a.md` (mtime 10) mirrored by
`a.ipynb` (mtime 0), threshold 5. -/
theorem checker_proximity_law_witness :
    (absI (10 - 0) < 5 →
      (checkConsistency ConflictRes.newer 5 true [(relMdA, 10)]
          [(relNbA, 0)]).mdToIpynb.countP
        (fun x => decide (x.relPath = relMdA)) = 0 ∧
      (checkConsistency ConflictRes.newer 5 true [(relMdA, 10)]
          [(relNbA, 0)]).ipynbToMd.countP
        (fun x => decide (x.relPath = withExt relMdA "ipynb")) = 0) ∧
    ((5 : ℤ) ≤ absI (10 - 0) →
      ¬ (10 : ℤ) = 0 ∧
      ((0 : ℤ) < 10 →
        (checkConsistency ConflictRes.newer 5 true [(relMdA, 10)]
            [(relNbA, 0)]).mdToIpynb.countP
          (fun x => decide (x.relPath = relMdA)) = 1 ∧
        (checkConsistency ConflictRes.newer 5 true [(relMdA, 10)]
            [(relNbA, 0)]).ipynbToMd.countP
          (fun x => decide (x.relPath = withExt relMdA "ipynb")) = 0) ∧
      ((10 : ℤ) < 0 →
        (checkConsistency ConflictRes.newer 5 true [(relMdA, 10)]
            [(relNbA, 0)]).mdToIpynb.countP
          (fun x => decide (x.relPath = relMdA)) = 0 ∧
        (checkConsistency ConflictRes.newer 5 true [(relMdA, 10)]
            [(relNbA, 0)]).ipynbToMd.countP
          (fun x => decide (x.relPath = withExt relMdA "ipynb")) = 1)) :=
  checker_proximity_law 5 true [(relMdA, 10)] [(relNbA, 0)] relMdA 10 0
    (by decide) (by decide) (by decide) rfl (by decide)

/-- The pending-map entry one event produces: a `deleted` event is
backdated by `debounce_delay - 0.1` (here `delay - 100` ms), any other
event carries its own time. -/
def pendingFor (delay : ℤ) (ev : ℤ × EventKind) : PendingInfo :=
  if ev.2 = EventKind.deleted then ⟨ev.1 - delay + 100, ev.2⟩ else ⟨ev.1, ev.2⟩

theorem lookupA_append_of_none {α β : Type} [DecidableEq α] (k : α)
    (l1 l2 : List (α × β)) (h : lookupA k l1 = none) :
    lookupA k (l1 ++ l2) = lookupA k l2 := by
  induction l1 with
  | nil => simp
  | cons e t ih =>
    obtain ⟨k2, v2⟩ := e
    by_cases he : k2 = k
    · simp [lookupA, he] at h
    · simp only [lookupA, he, if_false, List.cons_append] at h ⊢
      exact ih h

theorem lookupA_none_of_any_false {α β : Type} [DecidableEq α] (k : α)
    (l : List (α × β)) (h : l.any (fun e => decide (e.1 = k)) = false) :
    lookupA k l = none := by
  induction l with
  | nil => rfl
  | cons e t ih =>
    obtain ⟨k2, v2⟩ := e
    simp only [List.any_cons, Bool.or_eq_false_iff] at h
    have he : ¬ k2 = k := by
      intro hc
      rw [hc] at h
      simp at h
    simp only [lookupA, he, if_false]
    exact ih h.2

theorem lookupA_map_set (q : PendingMap) (k : AbsPath) (v : PendingInfo)
    (h : q.any (fun e => decide (e.1 = k)) = true) :
    lookupA k (q.map (fun e => if e.1 = k then (k, v) else e)) = some v := by
  induction q with
  | nil => simp at h
  | cons e t ih =>
    obtain ⟨k2, v2⟩ := e
    by_cases he : k2 = k
    · subst he
      rw [List.map_cons]
      have h1 : (if (k2, v2).1 = k2 then ((k2, v) : AbsPath × PendingInfo)
          else (k2, v2)) = (k2, v) := by
        simp
      rw [h1]
      simp [lookupA]
    · have ht : t.any (fun e => decide (e.1 = k)) = true := by
        simp only [List.any_cons] at h
        rcases Bool.or_eq_true_iff.mp h with h1 | h1
        · exact absurd (of_decide_eq_true h1) he
        · exact h1
      simp only [List.map_cons]
      have hne : ((k2, v2).1 = k) = False := by simp [he]
      rw [if_neg (by simpa using he)]
      simp only [lookupA, he, if_false]
      exact ih ht

theorem lookupA_setPending_self (q : PendingMap) (k : AbsPath)
    (v : PendingInfo) : lookupA k (setPending q k v) = some v := by
  unfold setPending
  split_ifs with hany
  · exact lookupA_map_set q k v hany
  · rw [lookupA_append_of_none]
    · simp [lookupA]
    · exact lookupA_none_of_any_false k q (Bool.not_eq_true _ ▸ eq_false_of_ne_true hany)

theorem setPending_keys_nodup (q : PendingMap) (k : AbsPath)
    (v : PendingInfo) (h : (q.map Prod.fst).Nodup) :
    ((setPending q k v).map Prod.fst).Nodup := by
  unfold setPending
  split_ifs with hany
  · have heq : (q.map (fun e => if e.1 = k then (k, v) else e)).map Prod.fst =
        q.map Prod.fst := by
      rw [List.map_map]
      apply List.map_congr_left
      intro e he
      by_cases h1 : e.1 = k
      · simp [h1]
      · simp [h1]
    rw [heq]
    exact h
  · have hk : k ∉ q.map Prod.fst := by
      intro hmem
      obtain ⟨e, he, hek⟩ := List.mem_map.mp hmem
      exact hany (List.any_eq_true.mpr ⟨e, he, by simp [hek]⟩)
    rw [List.map_append, List.nodup_append]
    refine ⟨h, List.nodup_singleton _, ?_⟩
    intro x hx hx2
    simp at hx2
    rw [hx2] at hx
    exact hk hx

theorem add_pending_event_keys_nodup (delay : ℤ) (q : PendingMap)
    (now : ℤ) (p : AbsPath) (k : EventKind)
    (h : (q.map Prod.fst).Nodup) :
    ((add_pending_event delay q now p k).map Prod.fst).Nodup := by
  unfold add_pending_event
  split_ifs
  · exact h
  · exact setPending_keys_nodup q p _ h
  · exact setPending_keys_nodup q p _ h

theorem enqueueAll_keys_nodup (delay : ℤ) (p : AbsPath) :
    ∀ (evs : List (ℤ × EventKind)) (q : PendingMap),
      (q.map Prod.fst).Nodup →
      ((enqueueAll delay p q evs).map Prod.fst).Nodup := by
  intro evs
  induction evs with
  | nil => intro q h; exact h
  | cons e t ih =>
    intro q h
    exact ih (add_pending_event delay q e.1 p e.2)
      (add_pending_event_keys_nodup delay q e.1 p e.2 h)

theorem add_pending_event_lookup (delay : ℤ) (q : PendingMap)
    (now : ℤ) (p : AbsPath) (k : EventKind)
    (hp : (isMdPath p || isIpynbPath p) = true) :
    lookupA p (add_pending_event delay q now p k) =
      some (pendingFor delay (now, k)) := by
  unfold add_pending_event
  rw [hp]
  simp only [Bool.not_true, Bool.false_eq_true, if_false]
  by_cases hd : k = EventKind.deleted
  · rw [if_pos hd, lookupA_setPending_self]
    simp [pendingFor, hd]
  · rw [if_neg hd, lookupA_setPending_self]
    simp [pendingFor, hd]

theorem enqueueAll_lookup (delay : ℤ) (p : AbsPath)
    (hp : (isMdPath p || isIpynbPath p) = true) :
    ∀ (evs : List (ℤ × EventKind)) (ev0 : ℤ × EventKind) (q : PendingMap),
      lookupA p (enqueueAll delay p q (ev0 :: evs)) =
        some (pendingFor delay (evs.getLastD ev0)) := by
  intro evs
  induction evs with
  | nil =>
    intro ev0 q
    show lookupA p (add_pending_event delay q ev0.1 p ev0.2) = _
    rw [add_pending_event_lookup delay q ev0.1 p ev0.2 hp]
    rfl
  | cons e1 rest ih =>
    intro ev0 q
    show lookupA p (enqueueAll delay p
      (add_pending_event delay q ev0.1 p ev0.2) (e1 :: rest)) = _
    rw [ih e1 (add_pending_event delay q ev0.1 p ev0.2)]
    rw [List.getLastD_cons]

theorem filter_key_eq_singleton (q : PendingMap) (p : AbsPath)
    (v : PendingInfo) (hnd : (q.map Prod.fst).Nodup)
    (hlk : lookupA p q = some v) :
    q.filter (fun e => decide (e.1 = p)) = [(p, v)] := by
  induction q with
  | nil => simp [lookupA] at hlk
  | cons e t ih =>
    obtain ⟨k2, v2⟩ := e
    rw [List.map_cons, List.nodup_cons] at hnd
    by_cases he : k2 = p
    · subst he
      have hv : v2 = v := by
        simp [lookupA] at hlk
        exact hlk
      subst hv
      have ht : t.filter (fun e => decide (e.1 = k2)) = [] := by
        rw [List.filter_eq_nil_iff]
        intro e he2 hdec
        have h3 : e.1 ∈ t.map Prod.fst := List.mem_map_of_mem Prod.fst he2
        rw [of_decide_eq_true hdec] at h3
        exact hnd.1 h3
      simp [List.filter_cons, ht]
    · simp only [lookupA, he, if_false] at hlk
      simp only [List.filter_cons]
      rw [if_neg (by simpa using he)]
      exact ih hnd.2 hlk

theorem getLastD_mem_cons {α : Type} :
    ∀ (l : List α) (a : α), l.getLastD a ∈ a :: l := by
  intro l
  induction l with
  | nil => intro a; simp
  | cons b t ih =>
    intro a
    rw [List.getLastD_cons]
    exact List.mem_cons_of_mem a (ih b)

theorem filter_comm_pending (l : PendingMap)
    (f g : AbsPath × PendingInfo → Bool) :
    (l.filter f).filter g = (l.filter g).filter f := by
  induction l with
  | nil => rfl
  | cons e t ih =>
    by_cases hf : f e <;> by_cases hg : g e <;>
      simp [List.filter_cons, hf, hg, ih]

/-- C4: debounce coalescing. (i) The queue holds at most one pending
action per path (key-uniqueness is preserved by the whole burst).
(ii) A burst of `modified`/`created` events for one path, each at or
after the first and with no drain firing before the first event's
window has passed, coalesces to exactly one entry carrying the last
event's kind and time; a drain at a time past the last event's window
fires exactly that one action, and a drain strictly before
`first + delay` fires nothing for the path. (iii) A trailing `deleted`
event replaces the pending entry with one whose backdated timestamp
makes it due `100 ms` after enqueue — ahead of the normal debounce
window — so a trailing `deleted` always wins. -/
theorem debounce_coalescing (delay : ℤ) (p : AbsPath) (q0 : PendingMap)
    (ev0 : ℤ × EventKind) (evs : List (ℤ × EventKind))
    (T Tearly nowDel : ℤ)
    (hdelay : 100 < delay)
    (hp : (isMdPath p || isIpynbPath p) = true)
    (hnd0 : (q0.map Prod.fst).Nodup)
    (hkinds : ∀ ev ∈ ev0 :: evs,
      ev.2 = EventKind.modified ∨ ev.2 = EventKind.created)
    (hfirst : ∀ ev ∈ ev0 :: evs, ev0.1 ≤ ev.1)
    (hdue : delay ≤ T - (evs.getLastD ev0).1)
    (hearly : Tearly < ev0.1 + delay) :
    ((enqueueAll delay p q0 (ev0 :: evs)).map Prod.fst).Nodup ∧
    lookupA p (enqueueAll delay p q0 (ev0 :: evs)) =
      some ⟨(evs.getLastD ev0).1, (evs.getLastD ev0).2⟩ ∧
    (process_pending_events delay T
        (enqueueAll delay p q0 (ev0 :: evs))).2.filter
      (fun e => decide (e.1 = p)) =
      [(p, ⟨(evs.getLastD ev0).1, (evs.getLastD ev0).2⟩)] ∧
    (process_pending_events delay Tearly
        (enqueueAll delay p q0 (ev0 :: evs))).2.filter
      (fun e => decide (e.1 = p)) = [] ∧
    lookupA p (add_pending_event delay (enqueueAll delay p q0 (ev0 :: evs))
      nowDel p EventKind.deleted) =
      some ⟨nowDel - delay + 100, EventKind.deleted⟩ ∧
    nowDel - delay + 100 + delay < nowDel + delay := by
  have hlast_mem : evs.getLastD ev0 ∈ ev0 :: evs := getLastD_mem_cons evs ev0
  have hlast_kind : (evs.getLastD ev0).2 ≠ EventKind.deleted := by
    rcases hkinds _ hlast_mem with h | h <;> rw [h] <;> intro hc <;> cases hc
  have hnd' : ((enqueueAll delay p q0 (ev0 :: evs)).map Prod.fst).Nodup :=
    enqueueAll_keys_nodup delay p (ev0 :: evs) q0 hnd0
  have hpf : pendingFor delay (evs.getLastD ev0) =
      ⟨(evs.getLastD ev0).1, (evs.getLastD ev0).2⟩ := by
    unfold pendingFor
    rw [if_neg hlast_kind]
  have hlk : lookupA p (enqueueAll delay p q0 (ev0 :: evs)) =
      some ⟨(evs.getLastD ev0).1, (evs.getLastD ev0).2⟩ := by
    rw [enqueueAll_lookup delay p hp evs ev0 q0, hpf]
  have hfilter : (enqueueAll delay p q0 (ev0 :: evs)).filter
      (fun e => decide (e.1 = p)) =
      [(p, ⟨(evs.getLastD ev0).1, (evs.getLastD ev0).2⟩)] :=
    filter_key_eq_singleton _ p _ hnd' hlk
  have hts : ev0.1 ≤ (evs.getLastD ev0).1 := hfirst _ hlast_mem
  refine ⟨hnd', hlk, ?_, ?_, ?_, by omega⟩
  · have hproc : (process_pending_events delay T
        (enqueueAll delay p q0 (ev0 :: evs))).2 =
        (enqueueAll delay p q0 (ev0 :: evs)).filter
          (fun e => dueB delay T e.2) := rfl
    rw [hproc, filter_comm_pending, hfilter]
    have hd : dueB delay T
        ⟨(evs.getLastD ev0).1, (evs.getLastD ev0).2⟩ = true := by
      unfold dueB
      exact decide_eq_true hdue
    simp only [List.filter_cons, List.filter_nil]
    rw [if_pos hd]
  · have hproc : (process_pending_events delay Tearly
        (enqueueAll delay p q0 (ev0 :: evs))).2 =
        (enqueueAll delay p q0 (ev0 :: evs)).filter
          (fun e => dueB delay Tearly e.2) := rfl
    rw [hproc, filter_comm_pending, hfilter]
    have hd : dueB delay Tearly
        ⟨(evs.getLastD ev0).1, (evs.getLastD ev0).2⟩ = false := by
      unfold dueB
      apply decide_eq_false
      show ¬ delay ≤ Tearly - (evs.getLastD ev0).1
      omega
    have hne : ¬ dueB delay Tearly
        ⟨(evs.getLastD ev0).1, (evs.getLastD ev0).2⟩ = true := by
      rw [hd]
      simp
    simp only [List.filter_cons, List.filter_nil]
    rw [if_neg hne]
  · rw [add_pending_event_lookup delay _ nowDel p EventKind.deleted hp]
    unfold pendingFor
    simp

/-- Witness for C4 at concrete values: delay 800 ms, events `modified`
at 0 and `created` at 300 ms, drains at 1200 (due) and 500 (early), a
trailing `deleted` at 2000 ms. -/
theorem debounce_coalescing_witness :
    ((enqueueAll 800 pMd []
      [(0, EventKind.modified), (300, EventKind.created)]).map Prod.fst).Nodup ∧
    lookupA pMd (enqueueAll 800 pMd []
      [(0, EventKind.modified), (300, EventKind.created)]) =
      some ⟨300, EventKind.created⟩ ∧
    (process_pending_events 800 1200 (enqueueAll 800 pMd []
        [(0, EventKind.modified), (300, EventKind.created)])).2.filter
      (fun e => decide (e.1 = pMd)) = [(pMd, ⟨300, EventKind.created⟩)] ∧
    (process_pending_events 800 500 (enqueueAll 800 pMd []
        [(0, EventKind.modified), (300, EventKind.created)])).2.filter
      (fun e => decide (e.1 = pMd)) = [] ∧
    lookupA pMd (add_pending_event 800 (enqueueAll 800 pMd []
        [(0, EventKind.modified), (300, EventKind.created)])
      2000 pMd EventKind.deleted) =
      some ⟨2000 - 800 + 100, EventKind.deleted⟩ ∧
    (2000 : ℤ) - 800 + 100 + 800 < 2000 + 800 :=
  debounce_coalescing 800 pMd [] (0, EventKind.modified)
    [(300, EventKind.created)] 1200 500 2000 (by decide) (by decide)
    (by decide) (by decide) (by decide) (by decide) (by decide)

end Synctool
